import Mathlib

/-!
# Verification of the tar.gz installer core

A shallow embedding of the installer core (`src/core/installer.py`,
`src/core/db_manager.py`): archive extraction, build-system detection,
dependency-failure diagnosis, the build/install command pipeline with staged
installation and file tracking, and the package/file persistence layer.

Python library primitives (`str` methods, `os.path` functions, `os.walk`,
`re.search` on the two fixed patterns, `sqlite3` transactions) are modelled
explicitly; subprocess execution and the filesystem contents seen by `os.walk`
are abstracted as inputs since they belong to the environment, not the program.
-/

set_option maxHeartbeats 1000000

/-! ## Python string primitives -/

/-- Python's `pat in s` substring test on strings. -/
def strContains (s pat : String) : Bool :=
  (List.range (s.data.length + 1)).any (fun i => pat.data.isPrefixOf (s.data.drop i))

/-- Python's `s.split(sep)` for a one-character separator: splits on every
occurrence, keeping empty components (`"".split('-') == [""]`). -/
def splitOnChar (sep : Char) : List Char → List (List Char)
  | [] => [[]]
  | c :: tl =>
    if c = sep then [] :: splitOnChar sep tl
    else
      match splitOnChar sep tl with
      | [] => [[c]]
      | h :: t => (c :: h) :: t

/-- Python's `'-'.join(parts)`. -/
def joinDash : List (List Char) → List Char
  | [] => []
  | [p] => p
  | p :: ps => p ++ '-' :: joinDash ps

/-- Python's `s.endswith(suffix)`. -/
def pyEndsWith (s suffix : String) : Bool := suffix.data.isSuffixOf s.data

/-- Model of `os.path.join(a, b)` on POSIX: `b` absolute wins; otherwise a separator is
inserted unless `a` is empty or already ends with one. -/
def pyJoin (a b : String) : String :=
  if b.data.head? = some '/' then b
  else if a.data = [] ∨ a.data.getLast? = some '/' then a ++ b
  else a ++ "/" ++ b

/-- Model of `os.path.relpath(path, start)` in the lexical sub-path case produced by
walking `start` (every queried path is `start ++ "/" ++ rest`). -/
def pyRelpath (path start : String) : String :=
  if (start.data ++ ['/']).isPrefixOf path.data then
    String.mk (path.data.drop (start.data.length + 1))
  else path

/-! ## Archive Reader (`Installer.extract_package`) -/

/-- The root the extractor reports: `members[0].name.split('/')[0]` joined onto the temp directory; the temp
directory itself when the archive has no members. -/
def extractedRootFor (tempDir : String) (memberNames : List String) : String :=
  match memberNames with
  | [] => tempDir
  | m :: _ => pyJoin tempDir (String.mk ((splitOnChar '/' m.data).headD []))

/-- Observable effects of one `extract_package` call. -/
structure ExtractAttempt where
  valueError : Option String
  tempCreated : Bool
  tempRemoved : Bool
  result : Option String
deriving DecidableEq, Repr

/-- Model of `Installer.extract_package`: the `.tar.gz` guard raises `ValueError` before
`tempfile.mkdtemp`; a `tarfile.TarError` (abstracted as `tarOk = false`) removes
the temp directory and returns `None`. -/
def extract_package (filePath tempDir : String) (tarOk : Bool)
    (memberNames : List String) : ExtractAttempt :=
  if ! pyEndsWith filePath ".tar.gz" then
    { valueError := some "Invalid file type. Only .tar.gz is supported.",
      tempCreated := false, tempRemoved := false, result := none }
  else if tarOk then
    { valueError := none, tempCreated := true, tempRemoved := false,
      result := some (extractedRootFor tempDir memberNames) }
  else
    { valueError := none, tempCreated := true, tempRemoved := true, result := none }

/-! ## Build System Detector (`Installer.detect_build_system`) -/

/-- Model of `detect_build_system` over the set of names existing at the extracted root
(`os.path.exists` on each probe file). The source uses the string `"python"`
for the python-setuptools kind. -/
def detect_build_system (rootEntries : List String) : Option String :=
  if "configure" ∈ rootEntries then some "autotools"
  else if "CMakeLists.txt" ∈ rootEntries then some "cmake"
  else if "setup.py" ∈ rootEntries then some "python"
  else if "Makefile" ∈ rootEntries then some "make"
  else none

/-! ## Dependency Diagnostic Parser (`Installer._parse_error_for_dependencies`)

The two patterns `fatal error: ([\w\/\.]+\.h):` and `cannot find -l(\w+)` are
modelled with Python `re.search` semantics: leftmost starting position, greedy
character-class runs.  Within one starting position the captured group is
forced to be the maximal class run (the character after the group must be `:`
for the first pattern, which is not a class character). -/

def isWordChar (c : Char) : Bool := c.isAlphanum || c = '_'

def isHeaderClassChar (c : Char) : Bool := isWordChar c || c = '/' || c = '.'

/-- One attempt of `fatal error: ([\w\/\.]+\.h):` anchored at the head. -/
def headerMatchAt (l : List Char) : Option (List Char) :=
  if (String.data "fatal error: ").isPrefixOf l then
    let rest := l.drop 13
    let run := rest.takeWhile isHeaderClassChar
    if 3 ≤ run.length ∧ ['.', 'h'].isSuffixOf run ∧ (rest.drop run.length).head? = some ':' then
      some run
    else none
  else none

/-- The `re.search` scan for the header pattern. -/
def searchHeader : List Char → Option (List Char)
  | [] => none
  | c :: tl =>
    match headerMatchAt (c :: tl) with
    | some g => some g
    | none => searchHeader tl

/-- One attempt of `cannot find -l(\w+)` anchored at the head. -/
def libMatchAt (l : List Char) : Option (List Char) :=
  if (String.data "cannot find -l").isPrefixOf l then
    let run := (l.drop 14).takeWhile isWordChar
    if run.isEmpty then none else some run
  else none

/-- The `re.search` scan for the linker pattern. -/
def searchLib : List Char → Option (List Char)
  | [] => none
  | c :: tl =>
    match libMatchAt (c :: tl) with
    | some g => some g
    | none => searchLib tl

/-- Model of `Installer._parse_error_for_dependencies`: header pattern first, then the
linker pattern, else no hint. -/
def parse_error_for_dependencies (errorOutput : String) : Option String :=
  match searchHeader errorOutput.data with
  | some h => some ("package containing " ++ String.mk h)
  | none =>
    match searchLib errorOutput.data with
    | some n => some ("lib" ++ String.mk n ++ "-dev")
    | none => none

/-! ## Name and version heuristics (`_get_package_name`, `_get_package_version`) -/

/-- Python's `basename.replace('.tar.gz', '')`: every occurrence of the
seven-character pattern is deleted, scanning left to right. -/
def removeTarGz : List Char → List Char
  | '.' :: 't' :: 'a' :: 'r' :: '.' :: 'g' :: 'z' :: rest => removeTarGz rest
  | c :: tl => c :: removeTarGz tl
  | [] => []

/-- Test `re.match(r'^\d', p)` as a Boolean. -/
def startsWithDigit (p : List Char) : Bool :=
  match p with
  | c :: _ => c.isDigit
  | [] => false

/-- Model of `Installer._get_package_name` applied to the archive's basename. -/
def get_package_name (basename : String) : String :=
  let parts := splitOnChar '-' (removeTarGz basename.data)
  let nameParts := parts.filter (fun p => ! startsWithDigit p)
  let joined := joinDash nameParts
  if joined = [] then "unknown_package" else String.mk joined

def tarGz : List Char := String.data ".tar.gz"

/-- The name derivation as the specification words it: strip the `.tar.gz`
SUFFIX only, then split on `-`, drop digit-leading components and re-join. -/
def stripTarGzSuffix (l : List Char) : List Char :=
  if tarGz.isSuffixOf l then l.take (l.length - 7) else l

/-- Modelled from the spec's wording of the name heuristic ("strip the known
`.tar.gz` suffix"), for comparison with `get_package_name`. -/
def get_package_name_spec (basename : String) : String :=
  let parts := splitOnChar '-' (stripTarGzSuffix basename.data)
  let nameParts := parts.filter (fun p => ! startsWithDigit p)
  let joined := joinDash nameParts
  if joined = [] then "unknown_package" else String.mk joined

/-- Every occurrence of `.tar.gz` in `l` extends to the end of `l`. -/
def tarGzOnlyAtEnd (l : List Char) : Bool :=
  (List.range (l.length + 1)).all
    (fun i => ! tarGz.isPrefixOf (l.drop i) || decide (l.drop i = tarGz))

/-- A maximal run of decimal digits (`\d+`, greedy). -/
def digitRun (l : List Char) : List Char := l.takeWhile Char.isDigit

/-- One attempt of `(\d+\.\d+\.\d+|\d+\.\d+)` anchored at the head; the
three-component alternative is preferred, and since `.` is not a digit the
greedy digit runs never backtrack. -/
def matchVersionAt (l : List Char) : Option (List Char) :=
  let d1 := digitRun l
  if d1.isEmpty then none
  else
    match l.drop d1.length with
    | '.' :: r2 =>
      let d2 := digitRun r2
      if d2.isEmpty then none
      else
        match r2.drop d2.length with
        | '.' :: r4 =>
          let d3 := digitRun r4
          if d3.isEmpty then some (d1 ++ '.' :: d2)
          else some (d1 ++ '.' :: d2 ++ '.' :: d3)
        | _ => some (d1 ++ '.' :: d2)
    | _ => none

/-- The first match of the version pattern, scanning left to right
(`re.findall(...)[0]`). -/
def findVersion : List Char → Option (List Char)
  | [] => none
  | c :: tl =>
    match matchVersionAt (c :: tl) with
    | some v => some v
    | none => findVersion tl

/-- Model of `Installer._get_package_version` applied to the archive's basename. -/
def get_package_version (basename : String) : String :=
  match findVersion basename.data with
  | some v => String.mk v
  | none => "unknown"

/-! ## Install Executor (`Installer.run_installation`)

Subprocess execution is abstracted by `exec : List String → CmdResult`, giving
each command's exit status and full merged stdout/stderr text; the contents the
install step leaves inside the staging root (as seen by `os.walk`) are
abstracted by `walk`, each entry a directory (path components relative to the
staging root, in the same order `os.walk` visits directories) with the regular
file names it contains. -/

/-- Outcome of spawning one command: the executable is missing
(`FileNotFoundError` from `Popen`), or the process ran and exited. -/
inductive CmdResult where
  | notFound
  | exited (code : Int) (output : String)
deriving DecidableEq, Repr

/-- Terminal outcomes of `run_installation`, including the uncaught
`FileNotFoundError` that escapes when the install command's executable is
missing (the install `Popen` has no `try/except`). -/
inductive Outcome where
  | detectionFailed
  | commandNotFound (exe : String)
  | buildFailedDep (pkg : String)
  | buildFailedCmd (cmd : List String)
  | noInstallStep
  | installFailed
  | uncaughtFileNotFound (exe : String)
  | success (count : Nat)
deriving DecidableEq, Repr

/-- Observable effects of one `run_installation` call: its outcome, the
commands for which a process spawn was attempted, whether the install command
was attempted, whether the staging directory was created and later removed, and
the manifest handed to `add_package` (if any). -/
structure RunResult where
  outcome : Outcome
  ran : List (List String)
  ranInstall : Bool
  stagingCreated : Bool
  stagingDeleted : Bool
  savedManifest : Option (List String)
deriving DecidableEq, Repr

/-- The fixed command table in `run_installation` (`commands.get(bs, [])`). -/
def commandsFor (buildSystem : String) : List (List String) :=
  if buildSystem = "autotools" then [["./configure"], ["make"], ["make", "install"]]
  else if buildSystem = "cmake" then [["cmake", "."], ["make"], ["make", "install"]]
  else if buildSystem = "python" then [["python3", "setup.py", "install"]]
  else if buildSystem = "make" then [["make"], ["make", "install"]]
  else []

/-- Test `'install' in ' '.join(cmd)`. -/
def cmdIsInstall (cmd : List String) : Bool :=
  strContains (String.intercalate " " cmd) "install"

/-- The build-role commands (`'install' not in ' '.join(cmd)`). -/
def buildCommandsOf (bs : String) : List (List String) :=
  (commandsFor bs).filter (fun c => ! cmdIsInstall c)

/-- The install-role commands. -/
def installCommandsOf (bs : String) : List (List String) :=
  (commandsFor bs).filter cmdIsInstall

/-- The structured failure of one build command: the Dependency Diagnostic
Parser is run over the command's full merged output; a hit is returned as the
`{"type": "dependency", "package": ...}` payload, otherwise the plain
`"Command failed"` payload naming the command. -/
def buildFailOutcome (cmd : List String) (output : String) : Outcome :=
  match parse_error_for_dependencies output with
  | some pkg => .buildFailedDep pkg
  | none => .buildFailedCmd cmd

/-- The build-command loop: run each build command in order; a missing
executable is caught (`Command not found`), a non-zero exit stops the loop with
`buildFailOutcome`.  Returns the commands attempted and the failure, if any. -/
def runBuilds (exec : List String → CmdResult) :
    List (List String) → List (List String) × Option Outcome
  | [] => ([], none)
  | c :: rest =>
    match exec c with
    | .notFound => ([c], some (.commandNotFound (c.headD "")))
    | .exited code out =>
      if code ≠ 0 then ([c], some (buildFailOutcome c out))
      else
        let r := runBuilds exec rest
        (c :: r.1, r.2)

/-- The file-tracking loop over `os.walk(staging_dir)`:
`'/' + os.path.relpath(os.path.join(root, file), staging_dir)` for every
regular file, where `root` is the walk directory's path as `os.walk` builds it
(repeated `os.path.join` from the top). -/
def trackInstalledFiles (stagingDir : String)
    (walk : List (List String × List String)) : List String :=
  walk.flatMap (fun e =>
    e.2.map (fun f => "/" ++ pyRelpath (pyJoin (e.1.foldl pyJoin stagingDir) f) stagingDir))

/-- Model of `Installer.run_installation`.  `detected` is `detect_build_system`'s
result, `hasDb` whether a `db_manager` is configured. -/
def run_installation (detected : Option String) (exec : List String → CmdResult)
    (stagingDir : String) (walk : List (List String × List String))
    (hasDb : Bool) : RunResult :=
  match detected with
  | none => ⟨.detectionFailed, [], false, false, false, none⟩
  | some bs =>
    let br := runBuilds exec (buildCommandsOf bs)
    match br.2 with
    | some o => ⟨o, br.1, false, false, false, none⟩
    | none =>
      match installCommandsOf bs with
      | [] => ⟨.noInstallStep, br.1, false, false, false, none⟩
      | ic :: _ =>
        match exec ic with
        | .notFound => ⟨.uncaughtFileNotFound (ic.headD ""), br.1 ++ [ic], true, true, false, none⟩
        | .exited code _ =>
          if code ≠ 0 then ⟨.installFailed, br.1 ++ [ic], true, true, true, none⟩
          else
            let files := trackInstalledFiles stagingDir walk
            ⟨.success files.length, br.1 ++ [ic], true, true, true,
              if hasDb ∧ files ≠ [] then some files else none⟩

/-! ## Package Store (`DBManager`)

The sqlite3 connection is modelled by its committed state plus the pending view
of the open implicit transaction (Python's sqlite3 default isolation begins a
transaction at the first `INSERT` and persists it only at `commit()`; the code
never rolls back).  Per-row insert success is abstracted by `ok` (a file insert
can fail on a constraint or I/O error); `AUTOINCREMENT` keys are counters. -/

structure DBState where
  packages : List (Nat × String × String)
  files : List (Nat × Nat × String)
  nextPid : Nat
  nextFid : Nat
deriving DecidableEq, Repr

def DBState.empty : DBState := ⟨[], [], 1, 1⟩

structure DBConn where
  committed : DBState
  pending : DBState
deriving DecidableEq, Repr

/-- A freshly opened connection on an empty database. -/
def DBConn.fresh : DBConn := ⟨DBState.empty, DBState.empty⟩

/-- Model of `INSERT INTO packages (name, version) VALUES (?, ?)` plus
`cursor.lastrowid`. -/
def insertPackage (st : DBState) (name version : String) : DBState × Nat :=
  ({ st with packages := st.packages ++ [(st.nextPid, name, version)],
             nextPid := st.nextPid + 1 },
   st.nextPid)

/-- One `INSERT INTO installed_files (package_id, path)` row. -/
def insertFile (st : DBState) (pid : Nat) (path : String) : DBState :=
  { st with files := st.files ++ [(st.nextFid, pid, path)], nextFid := st.nextFid + 1 }

/-- Model of `cursor.executemany` over the file rows: the statement is re-run per row;
when one row's insert fails the exception propagates and the rows already
inserted stay in the open transaction. -/
def insertFiles (ok : String → Bool) (st : DBState) (pid : Nat) :
    List String → Except DBState DBState
  | [] => .ok st
  | f :: fs => if ok f then insertFiles ok (insertFile st pid f) pid fs else .error st

/-- Model of `DBManager.add_package`: insert the package row, then the file rows, then
`commit()`.  A failing file insert raises out of the method before the commit,
leaving the transaction open and uncommitted. -/
def add_package (ok : String → Bool) (conn : DBConn) (name version : String)
    (files : List String) : Except DBConn (DBConn × Nat) :=
  let p := insertPackage conn.pending name version
  match insertFiles ok p.1 p.2 files with
  | .error st => .error { conn with pending := st }
  | .ok st => .ok (⟨st, st⟩, p.2)

/-- Model of `DBManager.get_files_for_package`: a `SELECT` through the same connection's
cursor, hence over the pending view. -/
def get_files_for_package (conn : DBConn) (pid : Nat) : List String :=
  (conn.pending.files.filter (fun r => r.2.1 == pid)).map (fun r => r.2.2)

/-! ## Named scenario inputs used by concrete theorems below -/

/-- A path component as a filesystem walk produces it: a nonempty name with no
separator inside. -/
abbrev goodName (s : String) : Prop := s.data ≠ [] ∧ '/' ∉ s.data

/-- A leading separator followed by the components joined with separators. -/
def relJoin (comps : List String) : List Char := comps.flatMap (fun d => '/' :: d.data)

/-- The `installed_files` rows produced by a run of `executemany` starting at
autoincrement key `fid` for package `pid`. -/
def pendingRows (fid pid : Nat) : List String → List (Nat × Nat × String)
  | [] => []
  | f :: fs => (fid, pid, f) :: pendingRows (fid + 1) pid fs

/-- An environment in which `make` exits 2 with output `"boom"` and every other
command succeeds. -/
def execFailMake : List String → CmdResult := fun c =>
  if c = ["make"] then .exited 2 "boom" else .exited 0 ""

/-- An environment in which the setuptools install command exits 1 and every
other command succeeds. -/
def execInstallFails : List String → CmdResult := fun c =>
  if c = ["python3", "setup.py", "install"] then .exited 1 "boom" else .exited 0 ""

/-- An environment in which no executable can be located. -/
def execNotFound : List String → CmdResult := fun _ => .notFound

/-- The per-row insert predicate of the C4 scenario: the path `"BAD"` fails
(e.g. a constraint violation), every other insert succeeds. -/
def okExceptBad : String → Bool := fun f => f != "BAD"

/-- Connection state after the failed `add_package` call of the C4 scenario:
nothing committed, but the package row and the first file row sit in the open
transaction. -/
def connAfterFail : DBConn :=
  ⟨DBState.empty, ⟨[(1, "p1", "1.0")], [(1, 1, "/good")], 2, 2⟩⟩

/-- Connection state after the next successful `add_package` call commits. -/
def connAfterNext : DBConn :=
  ⟨⟨[(1, "p1", "1.0"), (2, "p2", "2.0")], [(1, 1, "/good"), (2, 2, "/x")], 3, 3⟩,
   ⟨[(1, "p1", "1.0"), (2, "p2", "2.0")], [(1, 1, "/good"), (2, 2, "/x")], 3, 3⟩⟩

/-! ## Helper lemmas -/

theorem string_mk_data (s : String) : String.mk s.data = s := rfl

theorem slash_data : ("/" : String).data = ['/'] := by decide

theorem mem_of_getLast?_eq_some {α : Type} {l : List α} {a : α}
    (h : l.getLast? = some a) : a ∈ l := by
  rw [List.getLast?_eq_some_iff] at h
  obtain ⟨ys, rfl⟩ := h
  simp

theorem splitOnChar_ne_nil (sep : Char) (l : List Char) : splitOnChar sep l ≠ [] := by
  induction l with
  | nil => simp [splitOnChar]
  | cons c tl ih =>
    by_cases h : c = sep
    · simp [splitOnChar, h]
    · simp only [splitOnChar, if_neg h]
      cases hs : splitOnChar sep tl with
      | nil => simp
      | cons a b => simp

theorem splitOnChar_no_sep (sep : Char) (l : List Char) (h : sep ∉ l) :
    splitOnChar sep l = [l] := by
  induction l with
  | nil => rfl
  | cons c tl ih =>
    have hc : ¬ c = sep := fun he => h (he ▸ List.mem_cons_self c tl)
    have htl : sep ∉ tl := fun ht => h (List.mem_cons_of_mem c ht)
    simp only [splitOnChar, if_neg hc, ih htl]

theorem splitOnChar_head_before_sep (sep : Char) (l r : List Char) (h : sep ∉ l) :
    (splitOnChar sep (l ++ sep :: r)).headD [] = l := by
  induction l with
  | nil => simp [splitOnChar]
  | cons c tl ih =>
    have hc : ¬ c = sep := fun he => h (he ▸ List.mem_cons_self c tl)
    have htl : sep ∉ tl := fun ht => h (List.mem_cons_of_mem c ht)
    simp only [List.cons_append, splitOnChar, if_neg hc]
    cases hs : splitOnChar sep (tl ++ sep :: r) with
    | nil => exact absurd hs (splitOnChar_ne_nil sep _)
    | cons a b =>
      have hh := ih htl
      rw [hs] at hh
      simp only [List.headD_cons] at hh
      simp [hh]

theorem pyJoin_spec (a b : String) (ha1 : a.data ≠ []) (ha2 : a.data.getLast? ≠ some '/')
    (hb1 : b.data ≠ []) (hb2 : '/' ∉ b.data) :
    pyJoin a b = a ++ "/" ++ b ∧ (pyJoin a b).data = a.data ++ '/' :: b.data ∧
    (pyJoin a b).data.getLast? ≠ some '/' ∧ (pyJoin a b).data ≠ [] := by
  have hhead : ¬ b.data.head? = some '/' := by
    cases hd : b.data with
    | nil => simp
    | cons x xs =>
      simp only [List.head?_cons, Option.some.injEq]
      intro hx
      exact hb2 (hx ▸ (hd ▸ List.mem_cons_self x xs))
  have heq : pyJoin a b = a ++ "/" ++ b := by
    unfold pyJoin
    rw [if_neg hhead, if_neg (not_or.mpr ⟨ha1, ha2⟩)]
  have hdata : (pyJoin a b).data = a.data ++ '/' :: b.data := by
    rw [heq, String.data_append, String.data_append, slash_data, List.append_assoc,
      List.singleton_append]
  refine ⟨heq, hdata, ?_, by simp [hdata]⟩
  rw [hdata]
  cases hd : b.data with
  | nil => exact absurd hd hb1
  | cons x xs =>
    rw [List.getLast?_append, List.getLast?_cons_cons]
    have hne : (x :: xs).getLast? ≠ none := by simp
    obtain ⟨y, hy⟩ := Option.ne_none_iff_exists'.mp hne
    rw [hy, Option.or_some]
    intro hcon
    have hyx : y ∈ x :: xs := mem_of_getLast?_eq_some hy
    exact hb2 (Option.some.inj hcon ▸ (hd ▸ hyx))

/-! ## Claim C10 -/

/-- C10: for every input path not ending in `.tar.gz`, `extract_package` raises
`ValueError("Invalid file type. Only .tar.gz is supported.")` before any
temporary directory is created, so no filesystem state is changed. -/
theorem C10_invalid_suffix_rejected (filePath tempDir : String) (tarOk : Bool)
    (members : List String) (h : pyEndsWith filePath ".tar.gz" = false) :
    extract_package filePath tempDir tarOk members =
      { valueError := some "Invalid file type. Only .tar.gz is supported.",
        tempCreated := false, tempRemoved := false, result := none } := by
  simp [extract_package, h]

theorem C10_witness :
    extract_package "archive.zip" "/tmp/library_a" true ["pkg/"] =
      { valueError := some "Invalid file type. Only .tar.gz is supported.",
        tempCreated := false, tempRemoved := false, result := none } :=
  C10_invalid_suffix_rejected "archive.zip" "/tmp/library_a" true ["pkg/"] (by decide)

/-! ## Claim C5 -/

/-- C5: `detect_build_system` classifies by fixed priority on file existence:
`configure` → autotools (never make, even with a `Makefile` present); else
`CMakeLists.txt` → cmake; else `setup.py` → the python-setuptools kind (the
source's string `"python"`); else `Makefile` → make; else none. -/
theorem C5_detect_priority (entries : List String) :
    ("configure" ∈ entries →
      detect_build_system entries = some "autotools" ∧
      detect_build_system entries ≠ some "make") ∧
    ("configure" ∉ entries → "CMakeLists.txt" ∈ entries →
      detect_build_system entries = some "cmake") ∧
    ("configure" ∉ entries → "CMakeLists.txt" ∉ entries → "setup.py" ∈ entries →
      detect_build_system entries = some "python") ∧
    ("configure" ∉ entries → "CMakeLists.txt" ∉ entries → "setup.py" ∉ entries →
      "Makefile" ∈ entries → detect_build_system entries = some "make") ∧
    ("configure" ∉ entries → "CMakeLists.txt" ∉ entries → "setup.py" ∉ entries →
      "Makefile" ∉ entries → detect_build_system entries = none) := by
  refine ⟨fun h1 => ⟨?_, ?_⟩, fun h1 h2 => ?_, fun h1 h2 h3 => ?_,
    fun h1 h2 h3 h4 => ?_, fun h1 h2 h3 h4 => ?_⟩ <;>
    simp [detect_build_system, *]

theorem C5_witness :
    detect_build_system ["configure", "Makefile"] = some "autotools" ∧
    detect_build_system ["configure", "Makefile"] ≠ some "make" :=
  (C5_detect_priority ["configure", "Makefile"]).1 (by simp)

/-! ## Claim C7 -/

/-- C7: the diagnostic checks the missing-header pattern before the
missing-library pattern and otherwise yields no hint: the header example yields
a hint referencing `bar.h`, the linker example yields `"libfoo-dev"`, unrelated
text yields no hint, and when both patterns are present the header hint wins. -/
theorem C7_diagnose :
    parse_error_for_dependencies "fatal error: foo/bar.h: No such file or directory" =
      some "package containing foo/bar.h" ∧
    strContains "package containing foo/bar.h" "bar.h" = true ∧
    parse_error_for_dependencies "/usr/bin/ld: cannot find -lfoo" = some "libfoo-dev" ∧
    parse_error_for_dependencies "unrelated text" = none ∧
    parse_error_for_dependencies "fatal error: a.h: err and cannot find -lfoo" =
      some "package containing a.h" := by
  decide

/-! ## Claim C1 -/

/-- C1 fails as stated: when the first member's name has no directory
component, the returned root is `<tempDir>/<name>`, not `tempDir` itself. -/
theorem C1_counterexample :
    extractedRootFor "/tmp/library_x" ["README.md"] = "/tmp/library_x/README.md" ∧
    "/tmp/library_x/README.md" ≠ "/tmp/library_x" := by
  decide

/-- C1 (amended): with at least one member, `extract` always returns
`<tempDir>/<first '/'-component of the first member's name>` — whether or not
that name has a directory component — and `tempDir` itself only for an archive
with no members; in particular, for archives whose top-level entry is a single
directory `D` (first member named `D` or `D/...`), the root is `<tempDir>/D`. -/
theorem C1_extract_root (tempDir : String) :
    extractedRootFor tempDir [] = tempDir ∧
    (∀ n rest, extractedRootFor tempDir (n :: rest) =
      pyJoin tempDir (String.mk ((splitOnChar '/' n.data).headD []))) ∧
    (∀ D rest, tempDir.data ≠ [] → tempDir.data.getLast? ≠ some '/' →
      D.data ≠ [] → '/' ∉ D.data →
      extractedRootFor tempDir (D :: rest) = tempDir ++ "/" ++ D) ∧
    (∀ D sub rest, tempDir.data ≠ [] → tempDir.data.getLast? ≠ some '/' →
      D.data ≠ [] → '/' ∉ D.data →
      extractedRootFor tempDir ((D ++ "/" ++ sub) :: rest) = tempDir ++ "/" ++ D) := by
  refine ⟨rfl, fun n rest => rfl, fun D rest h1 h2 h3 h4 => ?_, fun D sub rest h1 h2 h3 h4 => ?_⟩
  · show pyJoin tempDir (String.mk ((splitOnChar '/' D.data).headD [])) = tempDir ++ "/" ++ D
    rw [splitOnChar_no_sep '/' D.data h4]
    simp only [List.headD_cons, string_mk_data]
    exact (pyJoin_spec tempDir D h1 h2 h3 h4).1
  · show pyJoin tempDir
      (String.mk ((splitOnChar '/' (D ++ "/" ++ sub).data).headD [])) = tempDir ++ "/" ++ D
    have hdata : (D ++ "/" ++ sub).data = D.data ++ '/' :: sub.data := by
      rw [String.data_append, String.data_append, slash_data, List.append_assoc,
        List.singleton_append]
    rw [hdata, splitOnChar_head_before_sep '/' D.data sub.data h4, string_mk_data]
    exact (pyJoin_spec tempDir D h1 h2 h3 h4).1

theorem C1_witness :
    extractedRootFor "/tmp/library_x" ["pkg-1.0/src/main.c"] = "/tmp/library_x/pkg-1.0" := by
  have h := (C1_extract_root "/tmp/library_x").2.2.2 "pkg-1.0" "src/main.c" []
    (by decide) (by decide) (by decide) (by decide)
  rw [(by decide : ("pkg-1.0" : String) ++ "/" ++ "src/main.c" = "pkg-1.0/src/main.c")] at h
  rw [h]
  decide

/-! ## Claim C9 -/

theorem removeTarGz_cons (c : Char) (tl : List Char)
    (h : ∀ (rest : List Char), c = '.' → tl = 't' :: 'a' :: 'r' :: '.' :: 'g' :: 'z' :: rest → False) :
    removeTarGz (c :: tl) = c :: removeTarGz tl := by
  rw [removeTarGz.eq_def]
  split
  · rename_i rest heq
    injection heq with h1 h2
    exact absurd (h rest h1 h2) not_false
  · rename_i c2 tl2 hx heq
    injection heq with h1 h2
    rw [h1, h2]
  · rename_i heq
    simp at heq

theorem tarGzChars : tarGz = ['.', 't', 'a', 'r', '.', 'g', 'z'] := by decide

theorem tarGzOnlyAtEnd_tail {c : Char} {tl : List Char}
    (h : tarGzOnlyAtEnd (c :: tl) = true) : tarGzOnlyAtEnd tl = true := by
  rw [tarGzOnlyAtEnd, List.all_eq_true] at h ⊢
  intro i hi
  have hmem : i + 1 ∈ List.range ((c :: tl).length + 1) := by
    simp only [List.mem_range] at hi ⊢
    simp only [List.length_cons]
    omega
  have := h (i + 1) hmem
  simpa using this

/-- When every occurrence of `.tar.gz` extends to the end of the string,
replace-all coincides with stripping the suffix. -/
theorem removeTarGz_onlyAtEnd (l : List Char) (h : tarGzOnlyAtEnd l = true) :
    removeTarGz l = stripTarGzSuffix l := by
  induction l using removeTarGz.induct with
  | case3 => decide
  | case1 rest ih =>
    have h0 := (List.all_eq_true.mp (by rwa [tarGzOnlyAtEnd] at h)) 0 (by simp)
    have hpre : tarGz.isPrefixOf ('.' :: 't' :: 'a' :: 'r' :: '.' :: 'g' :: 'z' :: rest) = true := by
      rw [ List.isPrefixOf_iff_prefix, tarGzChars]
      exact ⟨rest, rfl⟩
    simp only [List.drop_zero, hpre, Bool.not_true, Bool.false_or, decide_eq_true_eq] at h0
    rw [tarGzChars] at h0
    have hrest : rest = [] := by
      injection h0 with h1 h2; injection h2 with h1 h2; injection h2 with h1 h2
      injection h2 with h1 h2; injection h2 with h1 h2; injection h2 with h1 h2
      injection h2
    subst hrest
    decide
  | case2 c tl hno ih =>
    rw [removeTarGz_cons c tl hno, ih (tarGzOnlyAtEnd_tail h)]
    by_cases hsuf : tarGz.isSuffixOf tl = true
    · have hsfx : tarGz <:+ tl := List.isSuffixOf_iff_suffix.mp hsuf
      have hlen : 7 ≤ tl.length := by
        have := hsfx.length_le
        rw [tarGzChars] at this
        simpa using this
      have hsuf2 : tarGz.isSuffixOf (c :: tl) = true :=
        List.isSuffixOf_iff_suffix.mpr (List.suffix_cons_iff.mpr (Or.inr hsfx))
      rw [stripTarGzSuffix, stripTarGzSuffix, if_pos hsuf, if_pos hsuf2]
      simp only [List.length_cons]
      rw [(by omega : tl.length + 1 - 7 = (tl.length - 7) + 1), List.take_succ_cons]
    · have hsuf2 : ¬ tarGz.isSuffixOf (c :: tl) = true := by
        intro hs
        rcases List.suffix_cons_iff.mp (List.isSuffixOf_iff_suffix.mp hs) with heq | hsf
        · rw [tarGzChars] at heq
          injection heq with h1 h2
          exact hno _ h1.symm h2.symm
        · exact hsuf (List.isSuffixOf_iff_suffix.mpr hsf)
      rw [stripTarGzSuffix, stripTarGzSuffix, if_neg hsuf, if_neg hsuf2]

/-- C9 fails as stated: the code removes EVERY occurrence of `.tar.gz`
(`str.replace`), not only the suffix, so a basename with an inner `.tar.gz`
is persisted under a different name than the claim's derivation produces. -/
theorem C9_counterexample :
    get_package_name "weird.tar.gz.tar.gz" = "weird" ∧
    get_package_name_spec "weird.tar.gz.tar.gz" = "weird.tar.gz" ∧
    ("weird" : String) ≠ "weird.tar.gz" := by
  decide

/-- C9 (amended): the persisted name deletes every occurrence of `.tar.gz`
from the file name — which coincides with stripping the suffix whenever
`.tar.gz` occurs only at the end — then splits on `-`, drops digit-leading
components, joins with `-`, falling back to `"unknown_package"` when empty;
the persisted version is the first `X.Y.Z` or `X.Y` pattern in the file name,
falling back to `"unknown"`; the claim's concrete examples hold. -/
theorem C9_name_version :
    (∀ b : String, tarGzOnlyAtEnd b.data = true →
      get_package_name b = get_package_name_spec b) ∧
    get_package_name "mytool-2.3.1.tar.gz" = "mytool" ∧
    get_package_version "mytool-2.3.1.tar.gz" = "2.3.1" ∧
    get_package_version "dummy_inspect.tar.gz" = "unknown" ∧
    get_package_name "2.0.tar.gz" = "unknown_package" ∧
    get_package_version "tool-1.2.tar.gz" = "1.2" := by
  refine ⟨fun b hb => ?_, by decide, by decide, by decide, by decide, by decide⟩
  unfold get_package_name get_package_name_spec
  rw [removeTarGz_onlyAtEnd b.data hb]

theorem C9_witness :
    get_package_name "mytool-2.3.1.tar.gz" = get_package_name_spec "mytool-2.3.1.tar.gz" :=
  C9_name_version.1 "mytool-2.3.1.tar.gz" (by decide)

/-! ## Claims C3 and C2 -/

theorem runBuilds_ok (exec : List String → CmdResult) (cmds : List (List String))
    (h : ∀ c ∈ cmds, ∃ o, exec c = .exited 0 o) :
    runBuilds exec cmds = (cmds, none) := by
  induction cmds with
  | nil => rfl
  | cons c rest ih =>
    obtain ⟨o, ho⟩ := h c (List.mem_cons_self c rest)
    simp only [runBuilds, ho]
    rw [if_neg (by simp)]
    simp [ih (fun x hx => h x (List.mem_cons_of_mem c hx))]

theorem runBuilds_fail (exec : List String → CmdResult) (pre : List (List String))
    (c : List String) (post : List (List String)) (code : Int) (out : String)
    (hpre : ∀ b ∈ pre, ∃ o, exec b = .exited 0 o)
    (hc : exec c = .exited code out) (hcode : code ≠ 0) :
    runBuilds exec (pre ++ c :: post) = (pre ++ [c], some (buildFailOutcome c out)) := by
  induction pre with
  | nil =>
    simp only [List.nil_append]
    simp [runBuilds, hc, hcode]
  | cons b bs ih =>
    obtain ⟨o, ho⟩ := hpre b (List.mem_cons_self b bs)
    simp only [List.cons_append, runBuilds, ho]
    rw [if_neg (by simp)]
    simp [ih (fun x hx => hpre x (List.mem_cons_of_mem b hx))]

/-- C3: when a build-role command exits non-zero (all build commands before it
having succeeded), the Dependency Diagnostic Parser is run over that command's
full merged output and determines the failure payload (`buildFailOutcome`),
exactly the commands up to and including the failing one were attempted, no
install-role command runs, and no staging directory is ever created. -/
theorem C3_build_failure_stops (bs : String) (exec : List String → CmdResult)
    (stagingDir : String) (walk : List (List String × List String)) (hasDb : Bool)
    (pre : List (List String)) (c : List String) (post : List (List String))
    (code : Int) (out : String)
    (hsplit : buildCommandsOf bs = pre ++ c :: post)
    (hpre : ∀ b ∈ pre, ∃ o, exec b = .exited 0 o)
    (hc : exec c = .exited code out) (hcode : code ≠ 0) :
    run_installation (some bs) exec stagingDir walk hasDb =
      ⟨buildFailOutcome c out, pre ++ [c], false, false, false, none⟩ := by
  simp only [run_installation, hsplit,
    runBuilds_fail exec pre c post code out hpre hc hcode]

theorem C3_witness :
    run_installation (some "make") execFailMake "/stage" [] true =
      ⟨buildFailOutcome ["make"] "boom", [["make"]], false, false, false, none⟩ :=
  C3_build_failure_stops "make" execFailMake "/stage" [] true [] ["make"] [] 2 "boom"
    (by decide) (by intro b hb; exact absurd hb (List.not_mem_nil b)) (by decide) (by decide)

/-- C2 (amended): for an install attempt that reaches the install-role command,
a non-zero exit deletes the staging root and yields the install-failure
outcome; but a missing executable raises `FileNotFoundError` out of
`run_installation` uncaught (the install `Popen` has no handler), and on that
path the staging root is NOT deleted. -/
theorem C2_install_command_failure (bs : String) (exec : List String → CmdResult)
    (stagingDir : String) (walk : List (List String × List String)) (hasDb : Bool)
    (ic : List String) (rest : List (List String))
    (hok : ∀ b ∈ buildCommandsOf bs, ∃ o, exec b = .exited 0 o)
    (hic : installCommandsOf bs = ic :: rest) :
    (∀ code out, exec ic = .exited code out → code ≠ 0 →
      run_installation (some bs) exec stagingDir walk hasDb =
        ⟨.installFailed, buildCommandsOf bs ++ [ic], true, true, true, none⟩) ∧
    (exec ic = .notFound →
      run_installation (some bs) exec stagingDir walk hasDb =
        ⟨.uncaughtFileNotFound (ic.headD ""), buildCommandsOf bs ++ [ic],
          true, true, false, none⟩) := by
  have hb := runBuilds_ok exec (buildCommandsOf bs) hok
  constructor
  · intro code out he hcode
    simp only [run_installation, hb, hic, he]
    rw [if_pos hcode]
  · intro he
    simp only [run_installation, hb, hic, he]

theorem C2_witness :
    run_installation (some "python") execInstallFails "/stage" [] true =
      ⟨.installFailed, buildCommandsOf "python" ++ [["python3", "setup.py", "install"]],
        true, true, true, none⟩ :=
  (C2_install_command_failure "python" execInstallFails "/stage" [] true
      ["python3", "setup.py", "install"] []
      (by intro b hb
          rw [(by decide : buildCommandsOf "python" = [])] at hb
          exact absurd hb (List.not_mem_nil b))
      (by decide)).1 1 "boom" (by decide) (by decide)

/-- C2 fails as stated: when the install-role command's executable cannot be
located, the `FileNotFoundError` escapes uncaught — the outcome is neither
`InstallFailed` nor the caught `CommandNotFound`, and the staging root that was
created is NOT deleted. -/
theorem C2_counterexample :
    run_installation (some "python") execNotFound "/stage" [] true =
      ⟨.uncaughtFileNotFound "python3", [["python3", "setup.py", "install"]],
        true, true, false, none⟩ ∧
    (run_installation (some "python") execNotFound "/stage" [] true).stagingCreated = true ∧
    (run_installation (some "python") execNotFound "/stage" [] true).stagingDeleted = false ∧
    (run_installation (some "python") execNotFound "/stage" [] true).outcome ≠
      .installFailed ∧
    (run_installation (some "python") execNotFound "/stage" [] true).outcome ≠
      .commandNotFound "python3" := by
  decide

/-! ## Claim C6 -/

theorem foldl_pyJoin_spec (dcs : List String) (staging : String)
    (hs1 : staging.data ≠ []) (hs2 : staging.data.getLast? ≠ some '/')
    (hc : ∀ d ∈ dcs, goodName d) :
    (dcs.foldl pyJoin staging).data = staging.data ++ relJoin dcs ∧
    (dcs.foldl pyJoin staging).data.getLast? ≠ some '/' ∧
    (dcs.foldl pyJoin staging).data ≠ [] := by
  induction dcs generalizing staging with
  | nil => simpa [relJoin] using ⟨hs2, hs1⟩
  | cons d ds ih =>
    obtain ⟨hd1, hd2⟩ := hc d (List.mem_cons_self d ds)
    obtain ⟨hjeq, hjdata, hjlast, hjne⟩ := pyJoin_spec staging d hs1 hs2 hd1 hd2
    have hrec := ih (pyJoin staging d) hjne hjlast
      (fun x hx => hc x (List.mem_cons_of_mem d hx))
    rw [List.foldl_cons]
    refine ⟨?_, hrec.2.1, hrec.2.2⟩
    rw [hrec.1, hjdata]
    simp [relJoin, List.append_assoc]

theorem track_entry (staging : String) (dcs : List String) (f : String)
    (hs1 : staging.data ≠ []) (hs2 : staging.data.getLast? ≠ some '/')
    (hc : ∀ d ∈ dcs, goodName d) (hf : goodName f) :
    "/" ++ pyRelpath (pyJoin (dcs.foldl pyJoin staging) f) staging =
      String.mk (relJoin (dcs ++ [f])) := by
  obtain ⟨hA, hL, hN⟩ := foldl_pyJoin_spec dcs staging hs1 hs2 hc
  obtain ⟨hjeq, hjdata, hjlast, hjne⟩ :=
    pyJoin_spec (dcs.foldl pyJoin staging) f hN hL hf.1 hf.2
  have hdata : (pyJoin (dcs.foldl pyJoin staging) f).data =
      staging.data ++ relJoin (dcs ++ [f]) := by
    rw [hjdata, hA]
    simp [relJoin, List.append_assoc]
  obtain ⟨rest, hrest⟩ : ∃ rest, relJoin (dcs ++ [f]) = '/' :: rest := by
    cases dcs with
    | nil => exact ⟨f.data, by simp [relJoin]⟩
    | cons d ds => exact ⟨d.data ++ relJoin (ds ++ [f]), by simp [relJoin]⟩
  have hpre : (staging.data ++ ['/']).isPrefixOf (staging.data ++ '/' :: rest) = true := by
    rw [ List.isPrefixOf_iff_prefix]
    exact ⟨rest, by simp⟩
  have hdrop : (staging.data ++ '/' :: rest).drop (staging.data.length + 1) = rest := by
    rw [(by simp : staging.data ++ '/' :: rest = (staging.data ++ ['/']) ++ rest),
      List.drop_left' (by simp)]
  unfold pyRelpath
  rw [hdata, hrest, if_pos hpre, hdrop]
  apply String.ext
  rw [String.data_append, slash_data]
  rfl

/-- C6: the tracked manifest has exactly one entry per regular file handed back
by the walk of the staging root (directories themselves contribute no entry),
each entry being that file's path relative to the staging root prefixed with a
leading separator; consequently every entry begins with a separator. -/
theorem C6_manifest (staging : String) (walk : List (List String × List String))
    (hs1 : staging.data ≠ []) (hs2 : staging.data.getLast? ≠ some '/')
    (hw : ∀ e ∈ walk, (∀ d ∈ e.1, goodName d) ∧ (∀ f ∈ e.2, goodName f)) :
    trackInstalledFiles staging walk =
      walk.flatMap (fun e => e.2.map (fun f => String.mk (relJoin (e.1 ++ [f])))) ∧
    ∀ p ∈ trackInstalledFiles staging walk, p.data.head? = some '/' := by
  have hmain : ∀ (w : List (List String × List String)),
      (∀ e ∈ w, (∀ d ∈ e.1, goodName d) ∧ (∀ f ∈ e.2, goodName f)) →
      trackInstalledFiles staging w =
        w.flatMap (fun e => e.2.map (fun f => String.mk (relJoin (e.1 ++ [f])))) := by
    intro w
    induction w with
    | nil => intro _; rfl
    | cons e es ih =>
      intro hw2
      show (e :: es).flatMap _ = _
      simp only [List.flatMap_cons]
      have hes := ih (fun x hx => hw2 x (List.mem_cons_of_mem e hx))
      rw [show trackInstalledFiles staging es =
          es.flatMap (fun x => x.2.map (fun f =>
            "/" ++ pyRelpath (pyJoin (x.1.foldl pyJoin staging) f) staging)) from rfl] at hes
      rw [hes]
      congr 1
      exact List.map_congr_left (fun f hf =>
        track_entry staging e.1 f hs1 hs2 (hw2 e (List.mem_cons_self e es)).1
          ((hw2 e (List.mem_cons_self e es)).2 f hf))
  refine ⟨hmain walk hw, ?_⟩
  rw [hmain walk hw]
  intro p hp
  rw [List.mem_flatMap] at hp
  obtain ⟨e, he, hp2⟩ := hp
  rw [List.mem_map] at hp2
  obtain ⟨f, hf, rfl⟩ := hp2
  obtain ⟨rest, hrest⟩ : ∃ rest, relJoin (e.1 ++ [f]) = '/' :: rest := by
    cases e.1 with
    | nil => exact ⟨f.data, by simp [relJoin]⟩
    | cons d ds => exact ⟨d.data ++ relJoin (ds ++ [f]), by simp [relJoin]⟩
  rw [hrest]
  rfl

theorem C6_witness :
    trackInstalledFiles "/tmp/stage" [([], ["f1"]), (["usr", "bin"], ["app"])] =
      ["/f1", "/usr/bin/app"] := by
  rw [(C6_manifest "/tmp/stage" [([], ["f1"]), (["usr", "bin"], ["app"])]
    (by decide) (by decide) (by decide)).1]
  decide

/-! ## Claims C8 and C4 -/

theorem insertFiles_all_ok (fs : List String) (st : DBState) (pid : Nat) :
    insertFiles (fun _ => true) st pid fs =
      .ok { st with
            files := st.files ++ pendingRows st.nextFid pid fs
            nextFid := st.nextFid + fs.length } := by
  induction fs generalizing st with
  | nil => simp [insertFiles, pendingRows]
  | cons f fs ih =>
    simp only [insertFiles, if_true]
    rw [ih]
    simp [insertFile, pendingRows, List.append_assoc]
    omega

theorem pendingRows_filter_map (fs : List String) (fid pid : Nat) :
    ((pendingRows fid pid fs).filter (fun r => r.2.1 == pid)).map (fun r => r.2.2) = fs := by
  induction fs generalizing fid with
  | nil => rfl
  | cons f fs ih => simp [pendingRows, List.filter_cons, ih]

/-- C8: `add_package` on a connection whose open view has no file row for the
next package id, with all inserts succeeding, returns that id, and
`get_files_for_package` on it yields exactly the inserted paths — so as a set
it equals the input set, independent of the insertion order. -/
theorem C8_add_then_get (conn : DBConn) (name version : String)
    (files files2 : List String) (hperm : List.Perm files2 files)
    (hfresh : ∀ r ∈ conn.pending.files, r.2.1 ≠ conn.pending.nextPid) :
    ∃ c2, add_package (fun _ => true) conn name version files2 =
        .ok (c2, conn.pending.nextPid) ∧
      get_files_for_package c2 conn.pending.nextPid = files2 ∧
      (get_files_for_package c2 conn.pending.nextPid).toFinset = files.toFinset := by
  unfold add_package
  simp only [insertPackage]
  rw [insertFiles_all_ok]
  refine ⟨_, rfl, ?_, ?_⟩
  · unfold get_files_for_package
    simp only [List.filter_append, List.map_append]
    rw [List.filter_eq_nil_iff.mpr (fun r hr => by simpa using hfresh r hr),
      pendingRows_filter_map]
    rfl
  · unfold get_files_for_package
    simp only [List.filter_append, List.map_append]
    rw [List.filter_eq_nil_iff.mpr (fun r hr => by simpa using hfresh r hr),
      pendingRows_filter_map]
    simpa using List.toFinset_eq_of_perm files2 files hperm

theorem C8_witness :
    (get_files_for_package
        ⟨⟨[(1, "pkgA", "1.0")], [(1, 1, "/b"), (2, 1, "/a")], 2, 3⟩,
         ⟨[(1, "pkgA", "1.0")], [(1, 1, "/b"), (2, 1, "/a")], 2, 3⟩⟩ 1).toFinset =
      (["/a", "/b"] : List String).toFinset := by
  obtain ⟨c2, hc, hlist, hfin⟩ := C8_add_then_get DBConn.fresh "pkgA" "1.0"
    ["/a", "/b"] ["/b", "/a"] (by decide)
    (by intro r hr; exact absurd hr (List.not_mem_nil r))
  rw [(by rfl : add_package (fun _ => true) DBConn.fresh "pkgA" "1.0" ["/b", "/a"] =
      Except.ok (⟨⟨[(1, "pkgA", "1.0")], [(1, 1, "/b"), (2, 1, "/a")], 2, 3⟩,
        ⟨[(1, "pkgA", "1.0")], [(1, 1, "/b"), (2, 1, "/a")], 2, 3⟩⟩, 1))] at hc
  injection hc with hpair
  injection hpair with hconn hpid
  rw [← hconn] at hfin
  exact hfin

/-- C4 demonstration: `add_package` issues no rollback, so although a failed
call commits nothing itself, its package row and partial file rows remain in
the open transaction and the NEXT successful `add_package`'s commit persists
them — package 1 ends up committed with the partial manifest `["/good"]`
instead of all-or-nothing. -/
theorem C4_atomicity_violated :
    add_package okExceptBad DBConn.fresh "p1" "1.0" ["/good", "BAD"] = .error connAfterFail ∧
    connAfterFail.committed = DBState.empty ∧
    add_package okExceptBad connAfterFail "p2" "2.0" ["/x"] = .ok (connAfterNext, 2) ∧
    (1, "p1", "1.0") ∈ connAfterNext.committed.packages ∧
    (1, 1, "/good") ∈ connAfterNext.committed.files ∧
    ((connAfterNext.committed.files.filter (fun r => r.2.1 == 1)).map (fun r => r.2.2) =
      ["/good"]) ∧
    ["/good"] ≠ ["/good", "BAD"] :=
  ⟨by rfl, by rfl, by rfl, by decide, by decide, by decide, by decide⟩
